import Mathlib

/-!
Formal model of the spiking-neural-network simulation in
src/Learning/STDP/Behaviour.py, together with proofs about its behaviours.

Vectors are modelled as `List ℚ` (membrane potentials, currents) and
`List Bool` (spike vectors); weight matrices as `List (List ℚ)`.
Tensor reals are modelled by ℚ: every operation that appears here
(comparison, +, -, *, /, min, max) is exact, so the structure of the
computation is preserved.
-/

/-- Scalar parameters of a LIF population (the `EXC_CONFIG` / `INH_CONFIG`
dictionaries of the source). -/
structure LIFParams where
  v_rest : ℚ
  v_reset : ℚ
  tau : ℚ
  R : ℚ
  threshold : ℚ
deriving DecidableEq

/-- `EXC_CONFIG` from the source. -/
def EXC_CONFIG : LIFParams :=
  { v_reset := -65, v_rest := -65, tau := 10, R := 2, threshold := -55 }

/-- `INH_CONFIG` from the source. -/
def INH_CONFIG : LIFParams :=
  { v_reset := -65, v_rest := -65, tau := 10, R := 2, threshold := -55 }

/-- `EXCITATORY_NEURON_SIZE = 100`. -/
def EXCITATORY_NEURON_SIZE : Nat := 100

/-- `INHIBITORY_NEURON_SIZE = EXCITATORY_NEURON_SIZE // 4`. -/
def INHIBITORY_NEURON_SIZE : Nat := EXCITATORY_NEURON_SIZE / 4

/-- `ITER = 4000`. -/
def ITER : Nat := 4000

/-- `LIF.initialize`: `neurons.v = neurons.vector(mode="ones") * neurons.v_rest`. -/
def lifInitV (p : LIFParams) (n : Nat) : List ℚ :=
  (List.replicate n (1 : ℚ)).map (fun x => x * p.v_rest)

/-- `LIF.initialize`: `neurons.spikes = neurons.vector(mode="zeros")` (all falsy). -/
def lifInitSpikes (n : Nat) : List Bool :=
  List.replicate n false

/-- `LIF._dv_dt`: `delta_v = v_rest - v`, `input_current = R * I`, returns
`delta_v + input_current`, elementwise. -/
def lifDvDt (p : LIFParams) (v I : List ℚ) : List ℚ :=
  List.zipWith (fun x c => (p.v_rest - x) + p.R * c) v I

/-- `LIF._fire`: `spikes = v >= threshold; v[spikes] = v_reset`.  Returns the
spike vector and the reset potential vector. -/
def lifFire (p : LIFParams) (v : List ℚ) : List Bool × List ℚ :=
  (v.map (fun x => decide (p.threshold ≤ x)),
   v.map (fun x => if p.threshold ≤ x then p.v_reset else x))

/-- `LIF.forward`: `self._fire(neurons)` followed by
`neurons.v += self._dv_dt(neurons) / neurons.tau`, where `_dv_dt` reads the
already-reset `v`.  Returns the end-of-step potentials and this step's spikes. -/
def lifForward (p : LIFParams) (v I : List ℚ) : List ℚ × List Bool :=
  let fired := lifFire p v
  (List.zipWith (fun x d => x + d / p.tau) fired.2 (lifDvDt p fired.2 I), fired.1)

/-- `torch.clip(x, lo, hi)` on one entry: `min (max x lo) hi`. -/
def clipScalar (lo hi x : ℚ) : ℚ := min (max x lo) hi

/-- `WeightClip.initialize`: reads `w_min` (default 0) and `w_max` (default 1)
and runs `assert 0 <= self.w_min < self.w_max`.  Returns whether
initialization succeeds. -/
def weightClipInitialize (w_min w_max : ℚ) : Bool :=
  decide (0 ≤ w_min ∧ w_min < w_max)

/-- `WeightClip.forward`: `synapse.W = torch.clip(synapse.W, w_min, w_max)`. -/
def weightClipForward (w_min w_max : ℚ) (W : List (List ℚ)) : List (List ℚ) :=
  W.map (fun row => row.map (clipScalar w_min w_max))

/-- `KWTA.initialize`: `self.k = self.parameter('k', None)`, stored without any
validation.  Returns whether initialization succeeds (always). -/
def kwtaInitialize (k : Int) : Bool := true

/-- `Input.initialize`: stores the waveform and zeroes `I`; performs no length
validation.  Returns whether initialization succeeds (always). -/
def inputInitialize (waveform : List (List ℚ)) : Bool := true

/-- `Input.forward`: `I = zeros; I += input[iteration-1]` — indexing past the
end of the stored waveform is a runtime error, modelled as `none`. -/
def inputForward (waveform : List (List ℚ)) (iteration : Nat) (n : Nat) :
    Option (List ℚ) :=
  match waveform.get? (iteration - 1) with
  | none => none
  | some row => some (List.zipWith (fun a b => a + b) (List.replicate n (0 : ℚ)) row)

/-- Insertion into a descending-sorted list, used to model the sorted values
that `torch.topk` returns. -/
def insertDesc (x : ℚ) : List ℚ → List ℚ
  | [] => [x]
  | y :: ys => if y ≤ x then x :: y :: ys else y :: insertDesc x ys

/-- Descending insertion sort. -/
def sortDesc : List ℚ → List ℚ
  | [] => []
  | x :: xs => insertDesc x (sortDesc xs)

/-- `torch.topk(t, k).values`: the `k` largest entries, largest first. -/
def topk (t : List ℚ) (k : Nat) : List ℚ := (sortDesc t).take k

/-- `torch.Tensor.min()` on a 1-D tensor; calling it on an empty tensor is a
runtime error, modelled as `none`. -/
def tensorMin : List ℚ → Option ℚ
  | [] => none
  | x :: xs =>
    some (match tensorMin xs with
      | none => x
      | some m => min x m)

/-- `KWTA.forward`: `will_spike_v = will_spike * (v - threshold)`, the margin
masked by the boolean candidate tensor (0 for subthreshold neurons). -/
def kwtaMask (p : LIFParams) (v : List ℚ) : List ℚ :=
  v.map (fun x => (if p.threshold ≤ x then (1 : ℚ) else 0) * (x - p.threshold))

/-- `torch.sum(will_spike)`: the number of candidates `v >= threshold`. -/
def kwtaCandidateCount (p : LIFParams) (v : List ℚ) : Nat :=
  v.countP (fun x => decide (p.threshold ≤ x))

/-- `KWTA.forward`: if `sum(will_spike) <= k` return unchanged; otherwise take
`min_value = topk(will_spike_v, k).values.min()` and set
`v[will_spike_v < min_value] = v_reset`.  `min()` of an empty result
(`k = 0`) is a runtime error, modelled as `none`. -/
def kwtaForward (k : Nat) (p : LIFParams) (v : List ℚ) : Option (List ℚ) :=
  let will_spike_v := kwtaMask p v
  if kwtaCandidateCount p v ≤ k then some v
  else
    match tensorMin (topk will_spike_v k) with
    | none => none
    | some min_value =>
      some (List.zipWith (fun x w => if w < min_value then p.v_reset else x)
        v will_spike_v)

/-- Number of candidates whose margin `v - threshold` is at least `m` — with
`m` the k-th largest masked margin, these are exactly the retained neurons. -/
def kwtaRetainedCount (p : LIFParams) (v : List ℚ) (m : ℚ) : Nat :=
  v.countP (fun x => decide (p.threshold ≤ x) && decide (m ≤ x - p.threshold))

/-- Number of candidates whose margin `v - threshold` equals `m` exactly (the
tie group at the k-th largest margin). -/
def kwtaTiedCount (p : LIFParams) (v : List ℚ) (m : ℚ) : Nat :=
  v.countP (fun x => decide (p.threshold ≤ x) && decide (x - p.threshold = m))

/-- `Synapse._get_presynaptic_inputs`: `torch.matmul(W, spikes.float())`. -/
def matvec (W : List (List ℚ)) (s : List Bool) : List ℚ :=
  W.map (fun row => (List.zipWith (fun c b => c * (if b then (1 : ℚ) else 0)) row s).sum)

/-- State of the two-population end-to-end network: excitatory and inhibitory
membrane potentials and spike vectors. -/
structure NetState where
  vE : List ℚ
  sE : List Bool
  vI : List ℚ
  sI : List Bool

/-- Weight matrices of the four passive connection groups of the end-to-end
experiment: `exc → exc` and `exc → inh` are GLUTAMATE, `inh → exc` and
`inh → inh` are GABA. -/
structure NetWeights where
  Wee : List (List ℚ)
  Wei : List (List ℚ)
  Wie : List (List ℚ)
  Wii : List (List ℚ)

/-- One iteration of the passive two-population network under zero external
input: for each population `Input.forward` resets `I` to zeros (the waveform is
all-zero), `Synapse.forward` adds `W @ spikes_src` for each GLUTAMATE afferent
and subtracts it for each GABA afferent, and `LIF.forward` advances the
membrane.  The excitatory population is stepped first, so the inhibitory
aggregation reads the freshly updated excitatory spikes, while every other
read sees the pre-update spike vector. -/
def netStep (pE pI : LIFParams) (w : NetWeights) (st : NetState) : NetState :=
  let iE := List.zipWith (fun a b => a - b)
      (List.zipWith (fun a b => a + b) (List.replicate st.vE.length (0 : ℚ))
        (matvec w.Wee st.sE))
      (matvec w.Wie st.sI)
  let eStep := lifForward pE st.vE iE
  let iI := List.zipWith (fun a b => a - b)
      (List.zipWith (fun a b => a + b) (List.replicate st.vI.length (0 : ℚ))
        (matvec w.Wei eStep.2))
      (matvec w.Wii st.sI)
  let iStep := lifForward pI st.vI iI
  { vE := eStep.1, sE := eStep.2, vI := iStep.1, sI := iStep.2 }

/-- The initial network state: both populations at `v_rest` with all-false
spike vectors, per `LIF.initialize`. -/
def netInit (pE pI : LIFParams) (nE nI : Nat) : NetState :=
  { vE := lifInitV pE nE, sE := lifInitSpikes nE,
    vI := lifInitV pI nI, sI := lifInitSpikes nI }

/-- `net.simulate_iterations`: iterate `netStep` a fixed number of times. -/
def netRun (pE pI : LIFParams) (w : NetWeights) : Nat → NetState → NetState
  | 0, st => st
  | Nat.succ n, st => netRun pE pI w n (netStep pE pI w st)

/-- State of the global torch random generator.  torch is an external
collaborator; the claims depend only on the stream being deterministic and on
`manual_seed` fixing it from the seed alone, so draws are modelled as a fixed
congruential stream over this state. -/
structure TorchGen where
  state : Nat
deriving DecidableEq

/-- `torch.manual_seed(seed)`: the ambient generator state is discarded and
replaced by one computed from the seed alone. -/
def manualSeed (seed : Nat) (g : TorchGen) : TorchGen := ⟨seed⟩

/-- One scalar draw of the modelled stream (`torch.rand(...)` entry): a linear
congruential step yielding a rational in `[0, 1)`. -/
def nextUniform (g : TorchGen) : ℚ × TorchGen :=
  let s := (g.state * 1103515245 + 12345) % 2147483648
  (((s % 1000 : Nat) : ℚ) / 1000, ⟨s⟩)

/-- A row of `cols` scalar draws. -/
def uniformRow : Nat → TorchGen → List ℚ × TorchGen
  | 0, g => ([], g)
  | Nat.succ c, g =>
    let d := nextUniform g
    let rest := uniformRow c d.2
    (d.1 :: rest.1, rest.2)

/-- `torch.rand(size=(rows, cols))`: a matrix of scalar draws, row-major. -/
def uniformMat : Nat → Nat → TorchGen → List (List ℚ) × TorchGen
  | 0, _, g => ([], g)
  | Nat.succ r, c, g =>
    let row := uniformRow c g
    let rest := uniformMat r c row.2
    (row.1 :: rest.1, rest.2)

/-- `torch.normal(mean, std, size=(rows, cols))`: a matrix of draws from the
same stream; only shape and determinism matter to the claims, so each entry is
a fixed function of a uniform draw. -/
def normalMat (mu std : ℚ) (rows cols : Nat) (g : TorchGen) :
    List (List ℚ) × TorchGen :=
  let u := uniformMat rows cols g
  (u.1.map (fun row => row.map (fun x => mu + std * (x - 1/2))), u.2)

/-- `InputGenerator.set_signals`: reseed the global generator, draw
`enable_input = rand(...) > threshold` and the gaussian values, and store the
two mutually exclusive signals `[enable*random, ~enable*random]`.  Returns the
signal pair together with the post-draw generator state, which the caller's
subsequent draws continue from. -/
def setSignals (mu std thr : ℚ) (signal_duration population_size seed : Nat)
    (g : TorchGen) : (List (List ℚ) × List (List ℚ)) × TorchGen :=
  let g0 := manualSeed seed g
  let u := uniformMat signal_duration population_size g0
  let enable := u.1.map (fun row => row.map (fun x => decide (thr < x)))
  let rnd := normalMat mu std signal_duration population_size u.2
  ((List.zipWith (fun erow rrow =>
      List.zipWith (fun e r => (if e then (1 : ℚ) else 0) * r) erow rrow) enable rnd.1,
    List.zipWith (fun erow rrow =>
      List.zipWith (fun e r => (if e then (0 : ℚ) else 1) * r) erow rrow) enable rnd.1),
   rnd.2)

/-- `tensor.repeat(n, 1)` (or `.repeat(n)` for a 1-D tensor): `n` concatenated
copies. -/
def listRepeat {α : Type} (l : List α) : Nat → List α
  | 0 => []
  | Nat.succ n => l ++ listRepeat l n

/-- `InputGenerator.get_signal_over_iter`: `cat((signal, zeros(rest_duration)))`
repeated `signal_repeat` times. -/
def getSignalOverIter (signal : List (List ℚ))
    (signal_repeat rest_duration population_size : Nat) : List (List ℚ) :=
  listRepeat
    (signal ++ List.replicate rest_duration (List.replicate population_size (0 : ℚ)))
    signal_repeat

/-- `InputGenerator.get_signal_no_over_iter`: the label track of one episode —
the class number over each signal stretch, `-1` over each rest, with one extra
trailing rest. -/
def getSignalNoOverIter (signal_no : Bool)
    (signal_duration signal_repeat rest_duration : Nat) : List ℚ :=
  listRepeat
    (List.replicate signal_duration (if signal_no then (1 : ℚ) else 0) ++
      List.replicate rest_duration (-1 : ℚ)) signal_repeat ++
    List.replicate rest_duration (-1 : ℚ)

/-- The episode loop of `InputGenerator.get_random_signals`: per episode, draw
`signal_no = rand(1).item() > 0.5`, lay down that class's signal-with-rest
block followed by the episode's trailing rest block, the matching label block,
and record the chosen class.  The source preallocates zero matrices and writes
each episode by slice assignment; the episode blocks tile them exactly, so the
construction is modelled by concatenation. -/
def randomSignalEpisodes (signals : List (List ℚ) × List (List ℚ))
    (signal_duration signal_repeat rest_duration population_size : Nat) :
    Nat → TorchGen → (List (List ℚ) × List ℚ × List Bool) × TorchGen
  | 0, g => (([], [], []), g)
  | Nat.succ n, g =>
    let d := nextUniform g
    let signal_no := decide ((1 : ℚ)/2 < d.1)
    let iter_signal := getSignalOverIter (if signal_no then signals.2 else signals.1)
        signal_repeat rest_duration population_size
    let iter_rest := List.replicate rest_duration (List.replicate population_size (0 : ℚ))
    let iter_signal_no :=
      getSignalNoOverIter signal_no signal_duration signal_repeat rest_duration
    let rest := randomSignalEpisodes signals signal_duration signal_repeat
        rest_duration population_size n d.2
    ((iter_signal ++ iter_rest ++ rest.1.1,
      iter_signal_no ++ rest.1.2.1,
      signal_no :: rest.1.2.2), rest.2)

/-- `InputGenerator.get_random_signals`: seed and draw the signal pair via
`set_signals`, then build `iter` episodes from the continuing stream.  Returns
the input matrix, the label vector (`random_signal_no`), the per-episode
chosen classes (`signal_orders`), and the final generator state. -/
def getRandomSignals (mu std thr : ℚ)
    (iter signal_duration signal_repeat rest_duration population_size seed : Nat)
    (g : TorchGen) : (List (List ℚ) × List ℚ × List Bool) × TorchGen :=
  let s := setSignals mu std thr signal_duration population_size seed g
  randomSignalEpisodes s.1 signal_duration signal_repeat rest_duration
    population_size iter s.2

/-- Claim C1: per step, `LIF.forward` first sets spikes to `v >= threshold`
elementwise, then resets `v` to `v_reset` exactly at the spiking indices, and
only then adds `(v_rest - v + R*I)/tau` computed from the already-reset `v`; a
neuron that spiked ends the step at `v_reset + (v_rest - v_reset + R*I[i])/tau`. -/
theorem lif_forward_reset_before_integration (p : LIFParams) (v I : List ℚ)
    (i : Nat) (hv : i < v.length) (hI : i < I.length) :
    (lifForward p v I).2.get? i = some (decide (p.threshold ≤ v[i])) ∧
    (lifForward p v I).1.get? i =
      some ((if p.threshold ≤ v[i] then p.v_reset else v[i]) +
        (p.v_rest - (if p.threshold ≤ v[i] then p.v_reset else v[i]) + p.R * I[i]) / p.tau) ∧
    (p.threshold ≤ v[i] →
      (lifForward p v I).1.get? i =
        some (p.v_reset + (p.v_rest - p.v_reset + p.R * I[i]) / p.tau)) := by
  refine ⟨?_, ?_, ?_⟩
  · simp [lifForward, lifFire, List.get?_eq_getElem?, List.getElem?_map,
      List.getElem?_eq_getElem hv]
  · simp [lifForward, lifFire, lifDvDt, List.get?_eq_getElem?, List.getElem?_zipWith,
      List.getElem?_map, List.getElem?_eq_getElem hv, List.getElem?_eq_getElem hI]
  · intro hth
    simp [lifForward, lifFire, lifDvDt, List.get?_eq_getElem?, List.getElem?_zipWith,
      List.getElem?_map, List.getElem?_eq_getElem hv, List.getElem?_eq_getElem hI, hth]

/-- Witness for C1 at a concrete input: one neuron at threshold with current 1
under the excitatory configuration. -/
theorem lif_forward_reset_before_integration_witness :
    (lifForward EXC_CONFIG [-55] [1]).2.get? 0 =
        some (decide (EXC_CONFIG.threshold ≤ ([(-55 : ℚ)])[0])) ∧
    (lifForward EXC_CONFIG [-55] [1]).1.get? 0 =
      some ((if EXC_CONFIG.threshold ≤ ([(-55 : ℚ)])[0] then EXC_CONFIG.v_reset
              else ([(-55 : ℚ)])[0]) +
        (EXC_CONFIG.v_rest - (if EXC_CONFIG.threshold ≤ ([(-55 : ℚ)])[0] then EXC_CONFIG.v_reset
              else ([(-55 : ℚ)])[0]) + EXC_CONFIG.R * ([(1 : ℚ)])[0]) / EXC_CONFIG.tau) ∧
    (EXC_CONFIG.threshold ≤ ([(-55 : ℚ)])[0] →
      (lifForward EXC_CONFIG [-55] [1]).1.get? 0 =
        some (EXC_CONFIG.v_reset +
          (EXC_CONFIG.v_rest - EXC_CONFIG.v_reset + EXC_CONFIG.R * ([(1 : ℚ)])[0]) /
            EXC_CONFIG.tau)) :=
  lif_forward_reset_before_integration EXC_CONFIG [-55] [1] 0 (by norm_num) (by norm_num)

/-- Claim C2 counterexample: with the excitatory configuration, a neuron at the
threshold with input current 1 spikes, but ends the step at `-64.8`, not at
`v_reset = -65`: the decay increment is applied after the reset. -/
theorem lif_post_step_not_reset_counterexample :
    EXC_CONFIG.threshold ≤ (-55 : ℚ) ∧
    (lifForward EXC_CONFIG [-55] [1]).2 = [true] ∧
    (lifForward EXC_CONFIG [-55] [1]).1 = [-64.8] ∧
    (-64.8 : ℚ) ≠ EXC_CONFIG.v_reset := by
  refine ⟨by norm_num [EXC_CONFIG], ?_, ?_, by norm_num [EXC_CONFIG]⟩
  · simp [lifForward, lifFire, lifDvDt, EXC_CONFIG]
  · simp [lifForward, lifFire, lifDvDt, EXC_CONFIG]
    norm_num

/-- Claim C2 (amended): when `v[i] >= threshold` holds before the update, the
step registers `spikes[i] = true` and resets `v[i]` to `v_reset` in the fire
phase, then ends the step at `v_reset + (v_rest - v_reset + R*I[i])/tau` (equal
to `v_reset` only when that increment vanishes); the spike vector is recomputed
from `v` alone each step, so this step's spike is not retained into the next
step's pre-update spike vector. -/
theorem lif_spike_reset_same_step (p : LIFParams) (v I : List ℚ)
    (i : Nat) (hv : i < v.length) (hI : i < I.length)
    (hth : p.threshold ≤ v[i]) :
    (lifForward p v I).2.get? i = some true ∧
    (lifFire p v).2.get? i = some p.v_reset ∧
    (lifForward p v I).1.get? i =
      some (p.v_reset + (p.v_rest - p.v_reset + p.R * I[i]) / p.tau) ∧
    (∀ v' I' : List ℚ, (lifForward p v' I').2 = v'.map (fun x => decide (p.threshold ≤ x))) := by
  refine ⟨?_, ?_, ?_, fun v' I' => rfl⟩
  · simp [lifForward, lifFire, List.get?_eq_getElem?, List.getElem?_map,
      List.getElem?_eq_getElem hv, hth]
  · simp [lifFire, List.get?_eq_getElem?, List.getElem?_map,
      List.getElem?_eq_getElem hv, hth]
  · simp [lifForward, lifFire, lifDvDt, List.get?_eq_getElem?, List.getElem?_zipWith,
      List.getElem?_map, List.getElem?_eq_getElem hv, List.getElem?_eq_getElem hI, hth]

/-- Witness for the amended C2 at a concrete input. -/
theorem lif_spike_reset_same_step_witness :
    (lifForward EXC_CONFIG [-54] [0]).2.get? 0 = some true ∧
    (lifFire EXC_CONFIG [-54]).2.get? 0 = some EXC_CONFIG.v_reset ∧
    (lifForward EXC_CONFIG [-54] [0]).1.get? 0 =
      some (EXC_CONFIG.v_reset +
        (EXC_CONFIG.v_rest - EXC_CONFIG.v_reset + EXC_CONFIG.R * ([(0 : ℚ)])[0]) /
          EXC_CONFIG.tau) ∧
    (∀ v' I' : List ℚ,
      (lifForward EXC_CONFIG v' I').2 =
        v'.map (fun x => decide (EXC_CONFIG.threshold ≤ x))) :=
  lif_spike_reset_same_step EXC_CONFIG [-54] [0] 0 (by norm_num) (by norm_num)
    (by norm_num [EXC_CONFIG])

theorem list_map_eq_self {α : Type} (f : α → α) :
    ∀ l : List α, (∀ x ∈ l, f x = x) → l.map f = l
  | [], _ => rfl
  | x :: xs, h => by
    rw [List.map_cons, h x (List.mem_cons_self x xs),
      list_map_eq_self f xs (fun y hy => h y (List.mem_cons_of_mem x hy))]

theorem clipScalar_idem (lo hi x : ℚ) :
    clipScalar lo hi (clipScalar lo hi x) = clipScalar lo hi x := by
  rcases le_total lo hi with h | h
  · have h1 : lo ≤ clipScalar lo hi x :=
      le_min (le_max_right x lo) h
    have h2 : clipScalar lo hi x ≤ hi := min_le_right _ _
    rw [clipScalar, max_eq_left h1, min_eq_left h2]
  · have h1 : clipScalar lo hi x = hi :=
      min_eq_right (h.trans (le_max_right x lo))
    rw [h1, clipScalar, max_eq_right h, min_eq_right h]

theorem clipScalar_of_bounded (lo hi x : ℚ) (h1 : lo ≤ x) (h2 : x ≤ hi) :
    clipScalar lo hi x = x := by
  rw [clipScalar, max_eq_left h1, min_eq_left h2]

/-- Claim C6: for `w_min < w_max`, the elementwise clip of `WeightClip.forward`
is idempotent — applying it twice with the same bounds equals applying it once —
and it is the identity on a matrix already within the bounds. -/
theorem weight_clip_idempotent (w_min w_max : ℚ) (W : List (List ℚ))
    (h : w_min < w_max) :
    weightClipForward w_min w_max (weightClipForward w_min w_max W) =
      weightClipForward w_min w_max W ∧
    ((∀ row ∈ W, ∀ x ∈ row, w_min ≤ x ∧ x ≤ w_max) →
      weightClipForward w_min w_max W = W) := by
  constructor
  · simp only [weightClipForward, List.map_map]
    refine List.map_congr_left (fun row _ => ?_)
    simp only [Function.comp, List.map_map]
    exact List.map_congr_left (fun x _ => clipScalar_idem _ _ _)
  · intro hb
    simp only [weightClipForward]
    refine list_map_eq_self _ W (fun row hrow => ?_)
    exact list_map_eq_self _ row
      (fun x hx => clipScalar_of_bounded _ _ _ (hb row hrow x hx).1 (hb row hrow x hx).2)

/-- Witness for C6 at a concrete matrix and bounds. -/
theorem weight_clip_idempotent_witness :
    weightClipForward 0 1 (weightClipForward 0 1 [[2, -1], [1/2]]) =
      weightClipForward 0 1 [[2, -1], [1/2]] ∧
    ((∀ row ∈ [[(2 : ℚ), -1], [1/2]], ∀ x ∈ row, (0 : ℚ) ≤ x ∧ x ≤ 1) →
      weightClipForward 0 1 [[2, -1], [1/2]] = [[2, -1], [1/2]]) :=
  weight_clip_idempotent 0 1 [[2, -1], [1/2]] (by norm_num)

/-- Claim C5 counterexample: `w_min = -1 < 1 = w_max` satisfies the claimed
success condition, yet `WeightClip.initialize` fails its assertion, which also
requires `0 ≤ w_min`; moreover `k = 0` and an empty waveform pass their
initializers without any detection. -/
theorem config_validation_counterexample :
    ((-1 : ℚ) < 1 ∧ weightClipInitialize (-1) 1 = false) ∧
    kwtaInitialize 0 = true ∧
    inputInitialize [] = true := by
  refine ⟨⟨by norm_num, ?_⟩, rfl, rfl⟩
  simp [weightClipInitialize]

/-- Claim C5 (amended): of the three conditions, only the weight bounds are
checked at initialize time — `WeightClip.initialize` succeeds exactly when
`0 ≤ w_min < w_max`, so `w_min ≥ w_max` is caught but any `w_min < 0` is
rejected as well; `KWTA.initialize` accepts every `k` unvalidated,
`Input.initialize` accepts every waveform unvalidated, and a waveform shorter
than the run only fails at step time, when `Input.forward` indexes past its
end (`iteration - 1 ≥ length`). -/
theorem config_validation_at_initialize (w_min w_max : ℚ) (k : Int)
    (wf : List (List ℚ)) (t n : Nat) :
    weightClipInitialize w_min w_max = decide (0 ≤ w_min ∧ w_min < w_max) ∧
    kwtaInitialize k = true ∧
    inputInitialize wf = true ∧
    (inputForward wf t n = none ↔ wf.length ≤ t - 1) := by
  refine ⟨rfl, rfl, rfl, ?_⟩
  unfold inputForward
  rcases h : wf.get? (t - 1) with _ | row
  · simp only [List.get?_eq_getElem?, List.getElem?_eq_none_iff] at h
    simpa using h
  · have hlt : t - 1 < wf.length := by
      by_contra hge
      rw [List.get?_eq_getElem?, List.getElem?_eq_none_iff.2 (Nat.le_of_not_lt hge)] at h
      exact Option.noConfusion h
    simp
    omega

theorem insertDesc_perm (x : ℚ) (l : List ℚ) : List.Perm (insertDesc x l) (x :: l) := by
  induction l with
  | nil => exact List.Perm.refl _
  | cons y ys ih =>
    unfold insertDesc
    split
    · exact List.Perm.refl _
    · exact (List.Perm.cons y ih).trans (List.Perm.swap x y ys)

theorem sortDesc_perm (l : List ℚ) : List.Perm (sortDesc l) l := by
  induction l with
  | nil => exact List.Perm.refl _
  | cons x xs ih =>
    exact (insertDesc_perm x (sortDesc xs)).trans (List.Perm.cons x ih)

theorem insertDesc_pairwise (x : ℚ) (l : List ℚ)
    (h : List.Pairwise (fun a b => b ≤ a) l) :
    List.Pairwise (fun a b => b ≤ a) (insertDesc x l) := by
  induction l with
  | nil => simp [insertDesc]
  | cons y ys ih =>
    rcases List.pairwise_cons.1 h with ⟨hy, hys⟩
    unfold insertDesc
    split
    · rename_i hyx
      refine List.pairwise_cons.2 ⟨?_, h⟩
      intro b hb
      rcases List.mem_cons.1 hb with hb | hb
      · exact hb ▸ hyx
      · exact (hy b hb).trans hyx
    · rename_i hyx
      have hxy : x ≤ y := le_of_lt (lt_of_not_le hyx)
      refine List.pairwise_cons.2 ⟨?_, ih hys⟩
      intro b hb
      have hmem := (insertDesc_perm x ys).mem_iff.1 hb
      rcases List.mem_cons.1 hmem with hb' | hb'
      · exact hb' ▸ hxy
      · exact hy b hb'

theorem sortDesc_pairwise (l : List ℚ) :
    List.Pairwise (fun a b => b ≤ a) (sortDesc l) := by
  induction l with
  | nil => exact List.Pairwise.nil
  | cons x xs ih => exact insertDesc_pairwise x (sortDesc xs) ih

theorem tensorMin_eq_none : ∀ l : List ℚ, tensorMin l = none ↔ l = []
  | [] => by simp [tensorMin]
  | x :: xs => by simp [tensorMin]

theorem tensorMin_le : ∀ (l : List ℚ) (m : ℚ), tensorMin l = some m → ∀ x ∈ l, m ≤ x
  | [], m, hm => by simp [tensorMin] at hm
  | x :: xs, m, hm => by
    intro y hy
    rcases hxs : tensorMin xs with _ | mx
    · have hnil : xs = [] := (tensorMin_eq_none xs).1 hxs
      subst hnil
      simp [tensorMin] at hm
      simp at hy
      rw [hy, ← hm]
    · simp [tensorMin, hxs] at hm
      rcases List.mem_cons.1 hy with h | h
      · rw [h, ← hm]; exact min_le_left _ _
      · exact (hm ▸ min_le_right x mx).trans (tensorMin_le xs mx hxs y h)

theorem tensorMin_mem : ∀ (l : List ℚ) (m : ℚ), tensorMin l = some m → m ∈ l
  | [], m, hm => by simp [tensorMin] at hm
  | x :: xs, m, hm => by
    rcases hxs : tensorMin xs with _ | mx
    · have hnil : xs = [] := (tensorMin_eq_none xs).1 hxs
      subst hnil
      simp [tensorMin] at hm
      simp [hm]
    · simp [tensorMin, hxs] at hm
      rcases min_choice x mx with h | h
      · rw [← hm, h]; exact List.mem_cons_self _ _
      · rw [← hm, h]; exact List.mem_cons_of_mem _ (tensorMin_mem xs mx hxs)

theorem countP_lt_length_of_mem {α : Type} (p : α → Bool) (a : α) :
    ∀ l : List α, a ∈ l → p a = false → l.countP p < l.length := by
  intro l
  induction l with
  | nil => intro h; simp at h
  | cons x xs ih =>
    intro hmem hpa
    rcases List.mem_cons.1 hmem with h | h
    · subst h
      rw [List.countP_cons, hpa]
      simpa using Nat.lt_succ_of_le (List.countP_le_length p)
    · rw [List.countP_cons]
      have := ih h hpa
      simp only [List.length_cons]
      split <;> omega

theorem countP_le_add {α : Type} (p q r : α → Bool) :
    ∀ l : List α, (∀ x ∈ l, p x = true → q x = true ∨ r x = true) →
      l.countP p ≤ l.countP q + l.countP r := by
  intro l
  induction l with
  | nil => intro _; simp
  | cons x xs ih =>
    intro h
    have hx := h x (List.mem_cons_self x xs)
    have ht := ih (fun y hy => h y (List.mem_cons_of_mem x hy))
    rw [List.countP_cons, List.countP_cons, List.countP_cons]
    by_cases hp : p x = true
    · rcases hx hp with hq | hr
      · simp [hp, hq]; omega
      · simp [hp, hr]
        split <;> omega
    · simp [hp]
      split <;> split <;> omega

/-- Claim C4: when at most `k` candidates reach threshold, `KWTA.forward` does
not suppress anything; when more than `k` do, the surviving candidates are
exactly those whose margin reaches the k-th-largest masked margin `m`, so the
post-suppression spike count is at most `k` unless at least two candidates tie
at `m`, in which case every candidate with margin at least `m` is retained and
the count may exceed `k`. -/
theorem kwta_spike_cap (k : Nat) (p : LIFParams) (v : List ℚ)
    (hk : 0 < k) (hreset : p.v_reset < p.threshold) :
    (kwtaCandidateCount p v ≤ k → kwtaForward k p v = some v) ∧
    (k < kwtaCandidateCount p v →
      ∃ v' m, kwtaForward k p v = some v' ∧
        tensorMin (topk (kwtaMask p v) k) = some m ∧
        kwtaCandidateCount p v' = kwtaRetainedCount p v m ∧
        (kwtaCandidateCount p v' ≤ k ∨ 2 ≤ kwtaTiedCount p v m)) := by
  constructor
  · intro h
    unfold kwtaForward
    rw [if_pos h]
  · intro h
    have hwlen : (kwtaMask p v).length = v.length := by simp [kwtaMask]
    have hkv : k < v.length :=
      lt_of_lt_of_le h (List.countP_le_length _)
    have hperm : List.Perm (sortDesc (kwtaMask p v)) (kwtaMask p v) :=
      sortDesc_perm _
    have hslen : (sortDesc (kwtaMask p v)).length = v.length :=
      hperm.length_eq.trans hwlen
    have htklen : (topk (kwtaMask p v) k).length = k := by
      simp only [topk, List.length_take, hslen]
      omega
    obtain ⟨m, hm⟩ : ∃ m, tensorMin (topk (kwtaMask p v) k) = some m := by
      rcases htk : topk (kwtaMask p v) k with _ | ⟨x, xs⟩
      · rw [htk] at htklen
        simp at htklen
        omega
      · exact ⟨_, rfl⟩
    have hv' : List.zipWith (fun x w => if w < m then p.v_reset else x) v (kwtaMask p v) =
        v.map (fun x =>
          if (if p.threshold ≤ x then (1:ℚ) else 0) * (x - p.threshold) < m
          then p.v_reset else x) := by
      rw [kwtaMask, List.zipWith_map_right, List.zipWith_same]
    refine ⟨List.zipWith (fun x w => if w < m then p.v_reset else x) v (kwtaMask p v),
        m, ?_, hm, ?_, ?_⟩
    · unfold kwtaForward
      rw [if_neg (by omega), hm]
    · rw [hv']
      unfold kwtaCandidateCount kwtaRetainedCount
      rw [List.countP_map]
      refine List.countP_congr (fun x _ => ?_)
      by_cases hc : p.threshold ≤ x
      · by_cases hlt : x - p.threshold < m
        · simp [Function.comp, hc, hlt, not_le.2 hreset, not_le.2 hlt]
        · simp [Function.comp, hc, hlt, le_of_not_lt hlt]
      · by_cases hm0 : (0:ℚ) < m
        · simp [Function.comp, hc, hm0, not_le.2 hreset]
        · simp [Function.comp, hc, hm0, not_lt.1 hm0]
    · have hcount : kwtaCandidateCount p
          (List.zipWith (fun x w => if w < m then p.v_reset else x) v (kwtaMask p v)) =
          kwtaRetainedCount p v m := by
        rw [hv']
        unfold kwtaCandidateCount kwtaRetainedCount
        rw [List.countP_map]
        refine List.countP_congr (fun x _ => ?_)
        by_cases hc : p.threshold ≤ x
        · by_cases hlt : x - p.threshold < m
          · simp [Function.comp, hc, hlt, not_le.2 hreset, not_le.2 hlt]
          · simp [Function.comp, hc, hlt, le_of_not_lt hlt]
        · by_cases hm0 : (0:ℚ) < m
          · simp [Function.comp, hc, hm0, not_le.2 hreset]
          · simp [Function.comp, hc, hm0, not_lt.1 hm0]
      rcases le_or_lt (kwtaCandidateCount p
          (List.zipWith (fun x w => if w < m then p.v_reset else x) v (kwtaMask p v))) k with
        hle | hgt
      · exact Or.inl hle
      · refine Or.inr ?_
        rw [hcount] at hgt
        have hmem' : m ∈ (sortDesc (kwtaMask p v)).take k := tensorMin_mem _ _ hm
        have htklen' : ((sortDesc (kwtaMask p v)).take k).length = k := htklen
        have hGTw : (kwtaMask p v).countP (fun y => decide (m < y)) ≤ k - 1 := by
          have h1 : (kwtaMask p v).countP (fun y => decide (m < y)) =
              (sortDesc (kwtaMask p v)).countP (fun y => decide (m < y)) :=
            (hperm.countP_eq _).symm
          rw [h1]
          conv_lhs => rw [← List.take_append_drop k (sortDesc (kwtaMask p v))]
          rw [List.countP_append]
          have htake := countP_lt_length_of_mem (fun y => decide (m < y)) m _ hmem'
            (by simp)
          rw [htklen'] at htake
          have hdrop : ((sortDesc (kwtaMask p v)).drop k).countP
              (fun y => decide (m < y)) = 0 := by
            rw [List.countP_eq_zero]
            intro a ha
            have hpw := sortDesc_pairwise (kwtaMask p v)
            conv at hpw => rw [← List.take_append_drop k (sortDesc (kwtaMask p v))]
            rcases List.pairwise_append.1 hpw with ⟨_, _, hcross⟩
            simp [not_lt.2 (hcross m hmem' a ha)]
          omega
        have hsplitcount : kwtaRetainedCount p v m ≤
            v.countP (fun x => decide (p.threshold ≤ x) && decide (m < x - p.threshold)) +
              kwtaTiedCount p v m := by
          apply countP_le_add
          intro x _ hx
          simp only [Bool.and_eq_true, decide_eq_true_eq] at hx ⊢
          rcases lt_or_eq_of_le hx.2 with h' | h'
          · exact Or.inl ⟨hx.1, h'⟩
          · exact Or.inr ⟨hx.1, h'.symm⟩
        have hGTv : v.countP
              (fun x => decide (p.threshold ≤ x) && decide (m < x - p.threshold)) ≤
            (kwtaMask p v).countP (fun y => decide (m < y)) := by
          rw [kwtaMask, List.countP_map]
          apply List.countP_mono_left
          intro x _ hx
          simp only [Bool.and_eq_true, decide_eq_true_eq] at hx
          simp [Function.comp, hx.1, hx.2]
        omega

/-- Witness for C4: `k = 1` with candidates at margins `2` and `1` plus one
subthreshold neuron, under the excitatory configuration. -/
theorem kwta_spike_cap_witness :
    (kwtaCandidateCount EXC_CONFIG [-53, -54, -60] ≤ 1 →
      kwtaForward 1 EXC_CONFIG [-53, -54, -60] = some [-53, -54, -60]) ∧
    (1 < kwtaCandidateCount EXC_CONFIG [-53, -54, -60] →
      ∃ v' m, kwtaForward 1 EXC_CONFIG [-53, -54, -60] = some v' ∧
        tensorMin (topk (kwtaMask EXC_CONFIG [-53, -54, -60]) 1) = some m ∧
        kwtaCandidateCount EXC_CONFIG v' = kwtaRetainedCount EXC_CONFIG [-53, -54, -60] m ∧
        (kwtaCandidateCount EXC_CONFIG v' ≤ 1 ∨
          2 ≤ kwtaTiedCount EXC_CONFIG [-53, -54, -60] m)) :=
  kwta_spike_cap 1 EXC_CONFIG [-53, -54, -60] (by norm_num) (by norm_num [EXC_CONFIG])

/-- Claim C3 counterexample: with `k = 1` and potentials `[-53, -54, -60]`
under the excitatory configuration (threshold `-55`), the KWTA step resets
neuron 2 — whose potential `-60` is below threshold — to `v_reset = -65`,
changing a subthreshold membrane potential. -/
theorem kwta_subthreshold_reset_counterexample :
    kwtaForward 1 EXC_CONFIG [-53, -54, -60] = some [-53, -65, -65] ∧
    ([(-53 : ℚ), -54, -60])[2] < EXC_CONFIG.threshold ∧
    (-65 : ℚ) ≠ ([(-53 : ℚ), -54, -60])[2] := by
  refine ⟨?_, by norm_num [EXC_CONFIG], by norm_num⟩
  norm_num [kwtaForward, kwtaCandidateCount, kwtaMask, topk, sortDesc, insertDesc,
    tensorMin, EXC_CONFIG, List.countP_cons]

/-- Claim C3 (amended): when more than `k` candidates reach threshold, the KWTA
step resets to `v_reset` every neuron whose masked margin (the margin for
candidates, `0` for subthreshold neurons) is strictly below the k-th-largest
masked margin `m`: all non-retained candidates, and, whenever `m > 0`, every
subthreshold neuron as well — a neuron with `v < threshold` keeps its membrane
potential only when `m ≤ 0`. -/
theorem kwta_reset_extent (k : Nat) (p : LIFParams) (v : List ℚ)
    (hk : 0 < k) (h : k < kwtaCandidateCount p v) :
    ∃ m, tensorMin (topk (kwtaMask p v) k) = some m ∧
      kwtaForward k p v = some (v.map (fun x =>
        if (if p.threshold ≤ x then (1 : ℚ) else 0) * (x - p.threshold) < m
        then p.v_reset else x)) ∧
      (∀ x : ℚ, x < p.threshold →
        (if (if p.threshold ≤ x then (1 : ℚ) else 0) * (x - p.threshold) < m
         then p.v_reset else x) = if 0 < m then p.v_reset else x) := by
  have hwlen : (kwtaMask p v).length = v.length := by simp [kwtaMask]
  have hkv : k < v.length := lt_of_lt_of_le h (List.countP_le_length _)
  have hperm : List.Perm (sortDesc (kwtaMask p v)) (kwtaMask p v) := sortDesc_perm _
  have hslen : (sortDesc (kwtaMask p v)).length = v.length := hperm.length_eq.trans hwlen
  have htklen : (topk (kwtaMask p v) k).length = k := by
    simp only [topk, List.length_take, hslen]
    omega
  obtain ⟨m, hm⟩ : ∃ m, tensorMin (topk (kwtaMask p v) k) = some m := by
    rcases htk : topk (kwtaMask p v) k with _ | ⟨x, xs⟩
    · rw [htk] at htklen
      simp at htklen
      omega
    · exact ⟨_, rfl⟩
  refine ⟨m, hm, ?_, ?_⟩
  · unfold kwtaForward
    rw [if_neg (by omega), hm]
    simp only [kwtaMask, List.zipWith_map_right, List.zipWith_same]
  · intro x hx
    simp [not_le.2 hx]

/-- Witness for the amended C3 at the counterexample input. -/
theorem kwta_reset_extent_witness :
    ∃ m, tensorMin (topk (kwtaMask EXC_CONFIG [-53, -54, -60]) 1) = some m ∧
      kwtaForward 1 EXC_CONFIG [-53, -54, -60] = some ([(-53 : ℚ), -54, -60].map (fun x =>
        if (if EXC_CONFIG.threshold ≤ x then (1 : ℚ) else 0) * (x - EXC_CONFIG.threshold) < m
        then EXC_CONFIG.v_reset else x)) ∧
      (∀ x : ℚ, x < EXC_CONFIG.threshold →
        (if (if EXC_CONFIG.threshold ≤ x then (1 : ℚ) else 0) * (x - EXC_CONFIG.threshold) < m
         then EXC_CONFIG.v_reset else x) = if 0 < m then EXC_CONFIG.v_reset else x) :=
  kwta_reset_extent 1 EXC_CONFIG [-53, -54, -60] (by norm_num)
    (by norm_num [kwtaCandidateCount, EXC_CONFIG, List.countP_cons])

/-- Claim C10: `KWTA.initialize` stores `k` without validation, and with
`k = 0` any step in which at least one neuron reaches threshold takes the
minimum of the empty `topk` result — a runtime error, modelled as `none`. -/
theorem kwta_k_zero_runtime_error (p : LIFParams) (v : List ℚ)
    (hc : 0 < kwtaCandidateCount p v) :
    kwtaInitialize 0 = true ∧ kwtaForward 0 p v = none := by
  refine ⟨rfl, ?_⟩
  unfold kwtaForward
  rw [if_neg (by omega)]
  simp [topk, tensorMin]

/-- Witness for C10: a single neuron exactly at threshold. -/
theorem kwta_k_zero_runtime_error_witness :
    kwtaInitialize 0 = true ∧ kwtaForward 0 EXC_CONFIG [-55] = none :=
  kwta_k_zero_runtime_error EXC_CONFIG [-55]
    (by norm_num [kwtaCandidateCount, EXC_CONFIG, List.countP_cons])

theorem zipWith_false_sum (row : List ℚ) : ∀ n : Nat,
    (List.zipWith (fun c b => c * (if b then (1 : ℚ) else 0)) row
      (List.replicate n false)).sum = 0 := by
  induction row with
  | nil => intro n; simp
  | cons x xs ih =>
    intro n
    cases n with
    | zero => simp
    | succ m =>
      simp [List.replicate_succ]
      simpa using ih m

theorem matvec_false (W : List (List ℚ)) (n : Nat) :
    matvec W (List.replicate n false) = List.replicate W.length 0 := by
  unfold matvec
  refine ((List.map_congr_left (fun row _ => zipWith_false_sum row n)).trans ?_)
  induction W with
  | nil => rfl
  | cons r rs ih => simp [List.replicate_succ, ih]

theorem zipWith_replicate_eq (f : ℚ → ℚ → ℚ) (a b : ℚ) (n : Nat) :
    List.zipWith f (List.replicate n a) (List.replicate n b) =
      List.replicate n (f a b) := by
  induction n with
  | zero => rfl
  | succ m ih => simp [List.replicate_succ, ih]

theorem lifForward_rest (p : LIFParams) (n : Nat) (h : p.v_rest < p.threshold) :
    lifForward p (List.replicate n p.v_rest) (List.replicate n 0) =
      (List.replicate n p.v_rest, List.replicate n false) := by
  unfold lifForward lifFire lifDvDt
  simp [List.map_replicate, zipWith_replicate_eq, not_le.2 h]

theorem netStep_rest (pE pI : LIFParams) (w : NetWeights) (nE nI : Nat)
    (hE : pE.v_rest < pE.threshold) (hI : pI.v_rest < pI.threshold)
    (hWee : w.Wee.length = nE) (hWie : w.Wie.length = nE)
    (hWei : w.Wei.length = nI) (hWii : w.Wii.length = nI) :
    netStep pE pI w
      ⟨List.replicate nE pE.v_rest, List.replicate nE false,
       List.replicate nI pI.v_rest, List.replicate nI false⟩ =
      ⟨List.replicate nE pE.v_rest, List.replicate nE false,
       List.replicate nI pI.v_rest, List.replicate nI false⟩ := by
  unfold netStep
  simp only [List.length_replicate, matvec_false, hWee, hWie, hWei, hWii,
    zipWith_replicate_eq, lifForward_rest pE nE hE]
  norm_num
  simp only [lifForward_rest pE nE hE]
  simp only [matvec_false, hWei, zipWith_replicate_eq]
  norm_num
  simp [lifForward_rest pI nI hI]

theorem netRun_rest (pE pI : LIFParams) (w : NetWeights) (nE nI : Nat)
    (hE : pE.v_rest < pE.threshold) (hI : pI.v_rest < pI.threshold)
    (hWee : w.Wee.length = nE) (hWie : w.Wie.length = nE)
    (hWei : w.Wei.length = nI) (hWii : w.Wii.length = nI) :
    ∀ n : Nat, netRun pE pI w n
      ⟨List.replicate nE pE.v_rest, List.replicate nE false,
       List.replicate nI pI.v_rest, List.replicate nI false⟩ =
      ⟨List.replicate nE pE.v_rest, List.replicate nE false,
       List.replicate nI pI.v_rest, List.replicate nI false⟩ := by
  intro n
  induction n with
  | zero => rfl
  | succ m ih =>
    unfold netRun
    rw [netStep_rest pE pI w nE nI hE hI hWee hWie hWei hWii]
    exact ih

/-- Claim C9: in the end-to-end network — 100 excitatory and 25 inhibitory
neurons, all four connection groups passive, zero external input — every one of
the 4000 iterations produces no spike in either population: from `v = v_rest`
with `I = 0` each LIF step leaves `v` exactly at `v_rest = -65`, which stays
below the threshold `-55`. -/
theorem passive_network_never_spikes (w : NetWeights) (n : Nat)
    (hWee : w.Wee.length = EXCITATORY_NEURON_SIZE)
    (hWie : w.Wie.length = EXCITATORY_NEURON_SIZE)
    (hWei : w.Wei.length = INHIBITORY_NEURON_SIZE)
    (hWii : w.Wii.length = INHIBITORY_NEURON_SIZE)
    (hn : n ≤ ITER) :
    (netRun EXC_CONFIG INH_CONFIG w n
        (netInit EXC_CONFIG INH_CONFIG EXCITATORY_NEURON_SIZE INHIBITORY_NEURON_SIZE)).sE =
      List.replicate EXCITATORY_NEURON_SIZE false ∧
    (netRun EXC_CONFIG INH_CONFIG w n
        (netInit EXC_CONFIG INH_CONFIG EXCITATORY_NEURON_SIZE INHIBITORY_NEURON_SIZE)).sI =
      List.replicate INHIBITORY_NEURON_SIZE false ∧
    (netRun EXC_CONFIG INH_CONFIG w n
        (netInit EXC_CONFIG INH_CONFIG EXCITATORY_NEURON_SIZE INHIBITORY_NEURON_SIZE)).vE =
      List.replicate EXCITATORY_NEURON_SIZE EXC_CONFIG.v_rest ∧
    (netRun EXC_CONFIG INH_CONFIG w n
        (netInit EXC_CONFIG INH_CONFIG EXCITATORY_NEURON_SIZE INHIBITORY_NEURON_SIZE)).vI =
      List.replicate INHIBITORY_NEURON_SIZE INH_CONFIG.v_rest ∧
    EXC_CONFIG.v_rest < EXC_CONFIG.threshold := by
  have hinit : netInit EXC_CONFIG INH_CONFIG EXCITATORY_NEURON_SIZE INHIBITORY_NEURON_SIZE =
      ⟨List.replicate EXCITATORY_NEURON_SIZE EXC_CONFIG.v_rest,
       List.replicate EXCITATORY_NEURON_SIZE false,
       List.replicate INHIBITORY_NEURON_SIZE INH_CONFIG.v_rest,
       List.replicate INHIBITORY_NEURON_SIZE false⟩ := by
    simp [netInit, lifInitV, lifInitSpikes, List.map_replicate]
  rw [hinit, netRun_rest EXC_CONFIG INH_CONFIG w EXCITATORY_NEURON_SIZE
    INHIBITORY_NEURON_SIZE (by norm_num [EXC_CONFIG]) (by norm_num [INH_CONFIG])
    hWee hWie hWei hWii n]
  exact ⟨rfl, rfl, rfl, rfl, by norm_num [EXC_CONFIG]⟩

/-- Witness for C9: concrete passive weight matrices with the correct number of
rows, run for the full 4000 iterations. -/
theorem passive_network_never_spikes_witness :
    (netRun EXC_CONFIG INH_CONFIG
        ⟨List.replicate 100 [1], List.replicate 25 [1], List.replicate 100 [1],
          List.replicate 25 [1]⟩ ITER
        (netInit EXC_CONFIG INH_CONFIG EXCITATORY_NEURON_SIZE INHIBITORY_NEURON_SIZE)).sE =
      List.replicate EXCITATORY_NEURON_SIZE false ∧
    (netRun EXC_CONFIG INH_CONFIG
        ⟨List.replicate 100 [1], List.replicate 25 [1], List.replicate 100 [1],
          List.replicate 25 [1]⟩ ITER
        (netInit EXC_CONFIG INH_CONFIG EXCITATORY_NEURON_SIZE INHIBITORY_NEURON_SIZE)).sI =
      List.replicate INHIBITORY_NEURON_SIZE false ∧
    (netRun EXC_CONFIG INH_CONFIG
        ⟨List.replicate 100 [1], List.replicate 25 [1], List.replicate 100 [1],
          List.replicate 25 [1]⟩ ITER
        (netInit EXC_CONFIG INH_CONFIG EXCITATORY_NEURON_SIZE INHIBITORY_NEURON_SIZE)).vE =
      List.replicate EXCITATORY_NEURON_SIZE EXC_CONFIG.v_rest ∧
    (netRun EXC_CONFIG INH_CONFIG
        ⟨List.replicate 100 [1], List.replicate 25 [1], List.replicate 100 [1],
          List.replicate 25 [1]⟩ ITER
        (netInit EXC_CONFIG INH_CONFIG EXCITATORY_NEURON_SIZE INHIBITORY_NEURON_SIZE)).vI =
      List.replicate INHIBITORY_NEURON_SIZE INH_CONFIG.v_rest ∧
    EXC_CONFIG.v_rest < EXC_CONFIG.threshold :=
  passive_network_never_spikes
    ⟨List.replicate 100 [1], List.replicate 25 [1], List.replicate 100 [1],
      List.replicate 25 [1]⟩ ITER
    (by simp [EXCITATORY_NEURON_SIZE])
    (by simp [EXCITATORY_NEURON_SIZE])
    (by simp [INHIBITORY_NEURON_SIZE, EXCITATORY_NEURON_SIZE])
    (by simp [INHIBITORY_NEURON_SIZE, EXCITATORY_NEURON_SIZE])
    (le_refl ITER)

/-- Claim C7: `get_random_signals` begins by calling `set_signals`, which
reseeds the global generator via `manual_seed(seed)`, so its whole output is a
function of the arguments alone: two invocations with identical arguments —
whatever the ambient generator states `g` and `g'` were — return the same
input matrix, the same label vector and the same ordered list of per-episode
chosen classes. -/
theorem get_random_signals_deterministic (mu std thr : ℚ)
    (iter signal_duration signal_repeat rest_duration population_size seed : Nat)
    (g g' : TorchGen) :
    (getRandomSignals mu std thr iter signal_duration signal_repeat rest_duration
        population_size seed g).1.1 =
      (getRandomSignals mu std thr iter signal_duration signal_repeat rest_duration
        population_size seed g').1.1 ∧
    (getRandomSignals mu std thr iter signal_duration signal_repeat rest_duration
        population_size seed g).1.2.1 =
      (getRandomSignals mu std thr iter signal_duration signal_repeat rest_duration
        population_size seed g').1.2.1 ∧
    (getRandomSignals mu std thr iter signal_duration signal_repeat rest_duration
        population_size seed g).1.2.2 =
      (getRandomSignals mu std thr iter signal_duration signal_repeat rest_duration
        population_size seed g').1.2.2 :=
  ⟨rfl, rfl, rfl⟩

theorem listRepeat_length {α : Type} (l : List α) : ∀ n : Nat,
    (listRepeat l n).length = n * l.length := by
  intro n
  induction n with
  | zero => simp [listRepeat]
  | succ m ih => simp [listRepeat, ih, Nat.succ_mul, Nat.add_comm]

theorem uniformRow_length : ∀ (c : Nat) (g : TorchGen),
    (uniformRow c g).1.length = c := by
  intro c
  induction c with
  | zero => intro g; rfl
  | succ m ih => intro g; simp [uniformRow, ih]

theorem uniformMat_length : ∀ (r c : Nat) (g : TorchGen),
    (uniformMat r c g).1.length = r := by
  intro r
  induction r with
  | zero => intro c g; rfl
  | succ m ih => intro c g; simp [uniformMat, ih]

theorem normalMat_length (mu std : ℚ) (r c : Nat) (g : TorchGen) :
    (normalMat mu std r c g).1.length = r := by
  simp [normalMat, uniformMat_length]

theorem setSignals_length (mu std thr : ℚ) (sd ps seed : Nat) (g : TorchGen) :
    (setSignals mu std thr sd ps seed g).1.1.length = sd ∧
    (setSignals mu std thr sd ps seed g).1.2.length = sd := by
  constructor <;>
    simp [setSignals, List.length_zipWith, uniformMat_length, normalMat_length]

theorem getSignalOverIter_length (signal : List (List ℚ)) (sr rd ps sd : Nat)
    (h : signal.length = sd) :
    (getSignalOverIter signal sr rd ps).length = sr * (sd + rd) := by
  simp [getSignalOverIter, listRepeat_length, h]

theorem getSignalNoOverIter_length (sno : Bool) (sd sr rd : Nat) :
    (getSignalNoOverIter sno sd sr rd).length = sr * (sd + rd) + rd := by
  simp [getSignalNoOverIter, listRepeat_length]

theorem mem_zip_listRepeat {α β : Type} (A : List α) (B : List β)
    (h : A.length = B.length) :
    ∀ (n : Nat) (pr : α × β), pr ∈ List.zip (listRepeat A n) (listRepeat B n) →
      pr ∈ List.zip A B := by
  intro n
  induction n with
  | zero => intro pr hpr; simp [listRepeat] at hpr
  | succ m ih =>
    intro pr hpr
    rw [listRepeat, listRepeat, List.zip_append h] at hpr
    rcases List.mem_append.1 hpr with h' | h'
    · exact h'
    · exact ih pr h'

theorem block_aligned (signal : List (List ℚ)) (c : ℚ) (sd sr rd ps : Nat)
    (hc : c ≠ -1) (hlen : signal.length = sd) :
    ∀ pr : ℚ × List ℚ,
      pr ∈ List.zip
        (listRepeat (List.replicate sd c ++ List.replicate rd (-1 : ℚ)) sr ++
          List.replicate rd (-1 : ℚ))
        (listRepeat (signal ++ List.replicate rd (List.replicate ps (0 : ℚ))) sr ++
          List.replicate rd (List.replicate ps (0 : ℚ))) →
      pr.1 = -1 → pr.2 = List.replicate ps 0 := by
  intro pr hpr hlab
  have hAB : (List.replicate sd c ++ List.replicate rd (-1 : ℚ)).length =
      (signal ++ List.replicate rd (List.replicate ps (0 : ℚ))).length := by
    simp [hlen]
  have hrep : (listRepeat (List.replicate sd c ++ List.replicate rd (-1 : ℚ)) sr).length =
      (listRepeat (signal ++ List.replicate rd (List.replicate ps (0 : ℚ))) sr).length := by
    simp [listRepeat_length, hlen]
  rw [List.zip_append hrep] at hpr
  rcases List.mem_append.1 hpr with h' | h'
  · have h2 := mem_zip_listRepeat _ _ hAB sr pr h'
    rw [List.zip_append (by simp [hlen])] at h2
    rcases List.mem_append.1 h2 with h3 | h3
    · rcases pr with ⟨a, b⟩
      have := (List.of_mem_zip h3).1
      have ha : a = c := List.eq_of_mem_replicate this
      exact absurd (ha ▸ hlab) hc
    · rcases pr with ⟨a, b⟩
      exact List.eq_of_mem_replicate (List.of_mem_zip h3).2
  · rcases pr with ⟨a, b⟩
    exact List.eq_of_mem_replicate (List.of_mem_zip h').2

theorem sig_choice_length (signals : List (List ℚ) × List (List ℚ)) (sd : Nat)
    (h1 : signals.1.length = sd) (h2 : signals.2.length = sd) (b : Bool) :
    (if b then signals.2 else signals.1).length = sd := by
  cases b <;> simp [h1, h2]

theorem episodes_len_eq (signals : List (List ℚ) × List (List ℚ)) (sd sr rd ps : Nat)
    (h1 : signals.1.length = sd) (h2 : signals.2.length = sd) :
    ∀ (n : Nat) (g : TorchGen),
      (randomSignalEpisodes signals sd sr rd ps n g).1.2.1.length =
        (randomSignalEpisodes signals sd sr rd ps n g).1.1.length := by
  intro n
  induction n with
  | zero => intro g; rfl
  | succ m ih =>
    intro g
    simp only [randomSignalEpisodes, List.length_append]
    rw [getSignalNoOverIter_length, getSignalOverIter_length _ sr rd ps sd
      (sig_choice_length signals sd h1 h2 _), List.length_replicate, ih]

theorem episodes_aligned (signals : List (List ℚ) × List (List ℚ)) (sd sr rd ps : Nat)
    (h1 : signals.1.length = sd) (h2 : signals.2.length = sd) :
    ∀ (n : Nat) (g : TorchGen) (pr : ℚ × List ℚ),
      pr ∈ List.zip (randomSignalEpisodes signals sd sr rd ps n g).1.2.1
        (randomSignalEpisodes signals sd sr rd ps n g).1.1 →
      pr.1 = -1 → pr.2 = List.replicate ps 0 := by
  intro n
  induction n with
  | zero =>
    intro g pr hpr
    simp [randomSignalEpisodes] at hpr
  | succ m ih =>
    intro g pr hpr hlab
    simp only [randomSignalEpisodes] at hpr
    have hlen1 : (getSignalNoOverIter
        (decide ((1 : ℚ)/2 < (nextUniform g).1)) sd sr rd).length =
        ((getSignalOverIter
            (if decide ((1 : ℚ)/2 < (nextUniform g).1) then signals.2 else signals.1)
            sr rd ps) ++
          List.replicate rd (List.replicate ps (0 : ℚ))).length := by
      rw [List.length_append, getSignalNoOverIter_length,
        getSignalOverIter_length _ sr rd ps sd (sig_choice_length signals sd h1 h2 _),
        List.length_replicate]
    rw [List.zip_append hlen1] at hpr
    rcases List.mem_append.1 hpr with h' | h'
    · simp only [getSignalNoOverIter, getSignalOverIter] at h'
      have hcne : ∀ b : Bool, (if b then (1 : ℚ) else 0) ≠ -1 := by
        intro b; cases b <;> norm_num
      exact block_aligned _ _ sd sr rd ps (hcne _)
        (sig_choice_length signals sd h1 h2 _) pr h' hlab
    · exact ih (nextUniform g).2 pr h' hlab

/-- Claim C8: in the output of `get_random_signals`, every timestep whose
label is `-1` carries a zero input row — rest rows come from the dedicated
zero blocks, never from a signal block — and the label vector and input matrix
have equal length, so the pairing covers every timestep. -/
theorem stimulus_rest_rows_zero (mu std thr : ℚ)
    (iter sd sr rd ps seed : Nat) (g : TorchGen) (pr : ℚ × List ℚ)
    (hmem : pr ∈ List.zip
        (getRandomSignals mu std thr iter sd sr rd ps seed g).1.2.1
        (getRandomSignals mu std thr iter sd sr rd ps seed g).1.1)
    (hlab : pr.1 = -1) :
    pr.2 = List.replicate ps 0 ∧
    (getRandomSignals mu std thr iter sd sr rd ps seed g).1.2.1.length =
      (getRandomSignals mu std thr iter sd sr rd ps seed g).1.1.length := by
  have hs := setSignals_length mu std thr sd ps seed g
  exact ⟨episodes_aligned _ sd sr rd ps hs.1 hs.2 iter _ pr hmem hlab,
    episodes_len_eq _ sd sr rd ps hs.1 hs.2 iter _⟩

/-- Witness for C8 at concrete parameters: one episode whose block is a single
rest timestep. -/
theorem stimulus_rest_rows_zero_witness :
    (((-1 : ℚ), ([] : List ℚ)).2 = List.replicate 0 (0 : ℚ)) ∧
    (getRandomSignals 0 1 (1/2) 1 0 0 1 0 0 ⟨0⟩).1.2.1.length =
      (getRandomSignals 0 1 (1/2) 1 0 0 1 0 0 ⟨0⟩).1.1.length :=
  stimulus_rest_rows_zero 0 1 (1/2) 1 0 0 1 0 0 ⟨0⟩ ((-1 : ℚ), ([] : List ℚ))
    (by norm_num [getRandomSignals, setSignals, randomSignalEpisodes,
      getSignalNoOverIter, getSignalOverIter, listRepeat, manualSeed,
      uniformMat, normalMat, nextUniform])
    rfl
